import Mathlib

/-
  Verification development for the backtesthub simulation kernel.

  Shallow embedding of the core data model and operations of the
  repository: the buffered Line abstraction (utils/bases.py), the
  Order execution-price rule (order.py), the Asset configuration
  routine (utils/bases.py), the Broker accounting state machine
  (broker.py) and the Ranking universe selection (pipelines/pipeline.py).

  Numeric values are modelled as rationals, calendar dates as integers
  (yyyymmdd ordinals where a concrete value is needed).  Fallible code
  returns Option or Except; a Python exception that propagates out of a
  method is modelled as the none / error case.
-/

set_option autoImplicit false

namespace Backtesthub

/-! Configuration constants, from utils/config.py (environment defaults). -/

def DEFAULT_CURRENCY : String := "BRL"

def DEFAULT_CRATE : ℚ := 2 / 10000

def DEFAULT_SLIPPAGE : ℚ := 3 / 10000

def DEFAULT_SCOMMISSION : ℚ := 10 / 10000

def DEFAULT_FCOMMISSION : ℚ := 10

def DEFAULT_CASH : ℚ := 100000000

def DEFAULT_BUFFER : ℕ := 200

def DEFAULT_INCEPTION : ℤ := 19000101

def DEFAULT_MATURITY : ℤ := 21000101

def DEFAULT_STKMINVOL : ℚ := 1 / 10

def DEFAULT_STKMAXVOL : ℚ := 3

def DEFAULT_LIQTHRESH : ℚ := 5 / 100

def DEFAULT_N : ℕ := 30

def CURR : List String :=
  ["BRL", "USD", "MXN", "CLP", "ARS", "EUR", "CAD", "CHF",
   "ZAR", "AUD", "NZD", "CNY", "JPY", "GBP", "HKD", "TRY"]

def RATESLIKE : List String := ["DI1", "DAP", "DDI"]

def MATURITY_MONTH_CODES : List Char :=
  ['F', 'G', 'H', 'J', 'K', 'M', 'N', 'Q', 'U', 'V', 'X', 'Z']

/-! Order status, from utils/config.py _STATUS. -/

inductive Status where
  | waiting
  | executed
  | cancelled
deriving DecidableEq, Repr

/-! Asset configuration, from utils/bases.py Asset.config and utils/checks.py. -/

/-- AssetCfg is the static per-instrument metadata computed by Asset.config:
commission scheme, multiplier, slippage, currency, dates and the
stock-like / rates-like classification. -/
structure AssetCfg where
  ticker : String
  slippage : ℚ
  currency : String
  inception : ℤ
  maturity : ℤ
  commission : ℚ
  commtypePerc : Bool
  multiplier : ℚ
  stocklike : Bool
  rateslike : Bool
  asset : String
deriving DecidableEq, Repr

/-- cashlike property of Asset: stocklike or rateslike. -/
def AssetCfg.cashlike (a : AssetCfg) : Bool :=
  a.stocklike || a.rateslike

/-- Python truthiness coalescing "commission or DEFAULT": None and 0 both
fall back to the default value. -/
def commDefault (c : Option ℚ) (d : ℚ) : ℚ :=
  match c with
  | none => d
  | some x => if x = 0 then d else x

/-- derive_asset from utils/checks.py: reads the maturity month letter at
position length-3 and the two trailing year characters; raises (error) when
the month letter is unrecognized or when the trailing characters are all
digits, as written in the source. -/
def derive_asset (fticker : String) : Except String String :=
  let cs := fticker.toList
  if cs.length < 3 then Except.error "IndexError"
  else
    let m := cs.getD (cs.length - 3) ' '
    let y := cs.drop (cs.length - 2)
    if m ∉ MATURITY_MONTH_CODES then
      Except.error "This ticker cannot have mult property because it is stock-like!"
    else if y.all Char.isDigit then
      Except.error "This ticker cannot have mult property because it is stock-like!"
    else Except.ok (String.mk (cs.take (cs.length - 3)))

/-- assetConfig embeds Asset.config from utils/bases.py.  The source checks
slippage and currency, then branches on whether a multiplier was supplied.
In the future-like branch the source builds the message
"Maturity is required for Future-Like assets" and constructs a ValueError
for a defaulted maturity, but never raises it, so the configuration
completes successfully; the embedding mirrors that by returning ok. -/
def assetConfig (ticker : String) (commission : Option ℚ) (multiplier : Option ℚ)
    (inception : ℤ) (maturity : ℤ) (slippage : ℚ) (currency : String) :
    Except String AssetCfg :=
  if slippage < 0 ∨ slippage > 1 then Except.error "Invalid value for slippage"
  else if currency ∉ CURR then Except.error "Invalid value for currency"
  else
    match multiplier with
    | none =>
      Except.ok
        { ticker := ticker
          slippage := slippage
          currency := currency
          inception := inception
          maturity := maturity
          commission := commDefault commission DEFAULT_SCOMMISSION
          commtypePerc := true
          multiplier := 1
          stocklike := true
          rateslike := false
          asset := ticker }
    | some m =>
      match derive_asset ticker with
      | Except.error e => Except.error e
      | Except.ok a =>
        -- the missing-maturity ValueError is constructed but never raised
        -- in the source, hence no error case here
        Except.ok
          { ticker := ticker
            slippage := slippage
            currency := currency
            inception := inception
            maturity := maturity
            commission := commDefault commission DEFAULT_FCOMMISSION
            commtypePerc := false
            multiplier := m
            stocklike := false
            rateslike := a ∈ RATESLIKE
            asset := a }

/-! Line buffers, from utils/bases.py Line. -/

/-- LineBuf models a Line: a fixed array of values together with the
cursor (buffer).  The hidden index line stores calendar dates, encoded
here as rationals like every other value. -/
structure LineBuf where
  values : List ℚ
  buffer : ℕ
deriving DecidableEq, Repr

/-- Line.next from utils/bases.py: increments the buffer. -/
def LineBuf.lineNext (l : LineBuf) : LineBuf :=
  { l with buffer := l.buffer + 1 }

/-- getitem embeds the composition of Line.__getitem__ with the underlying
numpy one-dimensional integer indexing: key := buffer + k; an index in
[0, len) reads directly, an index in [-len, 0) wraps to values[len + key]
(numpy negative-index semantics), anything else raises IndexError (none). -/
def LineBuf.getitem (l : LineBuf) (k : ℤ) : Option ℚ :=
  let key : ℤ := (l.buffer : ℤ) + k
  if 0 ≤ key then l.values.get? key.toNat
  else if -(l.values.length : ℤ) ≤ key then
    l.values.get? ((l.values.length : ℤ) + key).toNat
  else none

/-! Data objects, from utils/bases.py Data. -/

/-- DataS models a Data object: a dictionary of named lines (the hidden
"__index" line included, keyed exactly like the source dictionary) plus
the data object buffer. -/
structure DataS where
  lines : List (String × LineBuf)
  buffer : ℕ
deriving DecidableEq, Repr

/-- Data.next from utils/bases.py: increments the object buffer and the
buffer of every line in the dictionary. -/
def DataS.dataNext (d : DataS) : DataS :=
  { buffer := d.buffer + 1
    lines := d.lines.map (fun p => (p.1, p.2.lineNext)) }

/-- Data.__init__ line construction: every column becomes a Line with the
default buffer, and the hidden "__index" line is added, also with the
default buffer. -/
def DataS.mkData (cols : List (String × List ℚ)) (index : List ℚ) : DataS :=
  { lines :=
      cols.map (fun p => (p.1, LineBuf.mk p.2 DEFAULT_BUFFER))
        ++ [("__index", LineBuf.mk index DEFAULT_BUFFER)]
    buffer := DEFAULT_BUFFER }

/-- Iterated buffer advance: the orchestrator private advance-buffers step
calls Data.next once per simulated date. -/
def DataS.advance (d : DataS) : ℕ → DataS
  | 0 => d
  | n + 1 => (d.advance n).dataNext

/-! Orders, from order.py. -/

/-- Order holds the asset reference, the signed size, the optional limit
price and the lifecycle status.  (The stop price is accepted by the source
constructor but never used; issue and execution dates carry no accounting
content and are omitted.) -/
structure Order where
  data : AssetCfg
  size : ℚ
  limit : Option ℚ
  status : Status
deriving DecidableEq, Repr

/-- side from order.py: +1 for a buy (size > 0), -1 otherwise. -/
def Order.side (o : Order) : ℚ :=
  if 0 < o.size then 1 else -1

/-- Python truthiness of the optional limit price: None and 0 are falsy. -/
def limitTruthy : Option ℚ → Bool
  | none => false
  | some l => decide (l ≠ 0)

/-- Daily bar of an instrument as read through its lines at the current
buffer: today opening/high/low/closing prices, yesterday closing price, and
the closing price of the instrument currency pair against the home currency
(read only when the instrument is not quoted in the home currency). -/
structure Bar where
  open0 : ℚ
  high0 : ℚ
  low0 : ℚ
  close0 : ℚ
  closePrev : ℚ
  fxClose0 : ℚ
  signal0 : ℚ
  volatility0 : ℚ
deriving DecidableEq, Repr

/-- Outcome of Order.exec_price: a price, None (infeasible limit), or an
UnboundLocalError escaping the property. -/
inductive ExecResult where
  | ok (price : ℚ)
  | infeasible
  | unbound
deriving DecidableEq, Repr

/-- exec_price from order.py.  In the branch where the limit is falsy the
local variables slip and price are both assigned and the result is
open[0] * (1 + side * slip).  In the limit branch the source assigns only
price: a feasible limit computes price and then evaluates
price * (1 + side * slip) with slip never assigned, which raises
UnboundLocalError (unbound); an infeasible limit returns None (infeasible)
before slip is ever read. -/
def exec_price (o : Order) (bar : Bar) : ExecResult :=
  if limitTruthy o.limit = false then
    ExecResult.ok (bar.open0 * (1 + o.side * o.data.slippage))
  else
    match o.limit with
    | none => ExecResult.unbound
    | some limit =>
      if o.side = 1 then
        if limit ≥ bar.low0 then ExecResult.unbound else ExecResult.infeasible
      else
        if limit ≤ bar.high0 then ExecResult.unbound else ExecResult.infeasible

/-- total_comm from order.py: commission is the configured rate, multiplied
by the execution price when the commission type is percentual (recomputing
exec_price: a None exec_price short-circuits to 0, an UnboundLocalError
propagates); the total is -comm * |size|. -/
def total_comm (o : Order) (bar : Bar) : Option ℚ :=
  if o.data.commtypePerc then
    match exec_price o bar with
    | ExecResult.ok p => some (-(p * o.data.commission) * |o.size|)
    | ExecResult.infeasible => some 0
    | ExecResult.unbound => none
  else some (-o.data.commission * |o.size|)

/-! Association-list model of the Python dictionaries keyed by ticker
(insertion-ordered; update in place keeps the position of an existing key,
a fresh key is appended at the end, exactly like a Python dict). -/

/-- lookupA: dictionary get. -/
def lookupA {α : Type} : List (String × α) → String → Option α
  | [], _ => none
  | (k, v) :: rest, key => if k = key then some v else lookupA rest key

/-- updateA: dictionary update, replacing in place or appending. -/
def updateA {α : Type} : List (String × α) → String → α → List (String × α)
  | [], key, v => [(key, v)]
  | (k, w) :: rest, key, v =>
    if k = key then (key, v) :: rest else (k, w) :: updateA rest key v

/-- eraseA: dictionary pop. -/
def eraseA {α : Type} : List (String × α) → String → List (String × α)
  | [], _ => []
  | (k, w) :: rest, key =>
    if k = key then rest else (k, w) :: eraseA rest key

/-! Positions and the Broker ledger, from position.py and broker.py. -/

/-- Modelled from the spec: src/backtesthub/position.py in the repository
does not parse (a dangling assignment) and lacks the data/size fields and
the add method that broker.py calls; per the spec a Position is the pair
of an instrument reference and the held size, and add mutates the size by
the executed delta. -/
structure Position where
  data : AssetCfg
  size : ℚ
deriving DecidableEq, Repr

/-- Position.add, modelled from the spec: size += delta. -/
def Position.add (p : Position) (delta : ℚ) : Position :=
  { p with size := p.size + delta }

/-- Per-instrument per-date record appended by end_of_period. -/
structure TradeRecord where
  ticker : String
  size : ℚ
  opnl : ℚ
  ipnl : ℚ
  tpnl : ℚ
  cpnl : ℚ
  signal : ℚ
  refvol : ℚ
  target : ℚ
  texpo : ℚ
deriving DecidableEq, Repr

/-- Broker state.  The cash/open/equity numpy arrays are addressed only at
the current buffer cell and the previous one, so the state keeps the
current cell of each together with the previous-period cash/equity cells
and the start cash that fills any not-yet-written cell.  PnL accumulators
are the ticker-indexed default dictionaries. -/
structure Broker where
  startcash : ℚ
  cashPrev : ℚ
  equityPrev : ℚ
  cashCur : ℚ
  openCur : ℚ
  equityCur : ℚ
  positions : List (String × Position)
  orders : List (String × Order)
  cancels : List Order
  executed : List Order
  opnl : String → ℚ
  ipnl : String → ℚ
  tpnl : String → ℚ
  cpnl : String → ℚ
  records : List TradeRecord

/-- Environment of one simulated date: the bar of every instrument (keyed
by ticker) and the previous close of the carry line. -/
structure Env where
  bars : String → Bar
  lastCarry : ℚ

/-- bump: accumulator update of a ticker-indexed default dictionary. -/
def bump (f : String → ℚ) (k : String) (v : ℚ) : String → ℚ :=
  fun t => if t = k then f t + v else f t

/-- Broker construction: every ledger array cell holds the start cash,
books empty, accumulators zero. -/
def Broker.mkBroker (cash : ℚ) : Broker :=
  { startcash := cash
    cashPrev := cash
    equityPrev := cash
    cashCur := cash
    openCur := cash
    equityCur := cash
    positions := []
    orders := []
    cancels := []
    executed := []
    opnl := fun _ => 0
    ipnl := fun _ => 0
    tpnl := fun _ => 0
    cpnl := fun _ => 0
    records := [] }

/-- Broker.next: the buffer advances, so the previous cells become the
cells written last period and the fresh current cells still hold the
construction value (the arrays are initialized to the start cash and each
cell is written at most once). -/
def Broker.brokerNext (b : Broker) : Broker :=
  { b with
    cashPrev := b.cashCur
    equityPrev := b.equityCur
    cashCur := b.startcash
    openCur := b.startcash
    equityCur := b.startcash }

/-- effective multiplier: the instrument multiplier, times the closing
price of its currency pair when the instrument currency differs from the
home currency (broker.py repeats this computation at each phase). -/
def effFactor (a : AssetCfg) (bar : Bar) : ℚ :=
  a.multiplier * (if a.currency = DEFAULT_CURRENCY then 1 else bar.fxClose0)

/-- cancel_order from broker.py: the order status becomes CANCELLED and
the order joins the cancels audit list (the still-waiting warning is
side-effect free). -/
def cancel_order (b : Broker) (o : Order) : Broker :=
  { b with cancels := b.cancels ++ [{ o with status := Status.cancelled }] }

/-- new_order from broker.py: a zero size is a no-op; a pending order of
the same ticker is cancelled first; the new order is stored WAITING; a
missing position entry is created with size zero. -/
def new_order (b : Broker) (data : AssetCfg) (size : ℚ) (limit : Option ℚ) :
    Broker :=
  if size = 0 then b
  else
    let ticker := data.ticker
    let b1 :=
      match lookupA b.orders ticker with
      | some pending => cancel_order b pending
      | none => b
    let o : Order := { data := data, size := size, limit := limit, status := Status.waiting }
    let b2 := { b1 with orders := updateA b1.orders ticker o }
    if (lookupA b2.positions ticker).isSome then b2
    else { b2 with positions := updateA b2.positions ticker (Position.mk data 0) }

/-- close from broker.py: look the position up and submit the opposite
order (a zero-size position order is then a no-op inside new_order). -/
def Broker.close (b : Broker) (data : AssetCfg) : Broker :=
  match lookupA b.positions data.ticker with
  | none => b
  | some pos => new_order b pos.data (-pos.size) none

/-- execute_order from broker.py.  Propagates an exec_price
UnboundLocalError (none); an infeasible price returns the state unchanged;
otherwise commission and mark-to-market are charged, the position is
updated (and dropped at exact zero), and the order is stamped EXECUTED.
A missing position entry would be a KeyError (none). -/
def execute_order (env : Env) (b : Broker) (o : Order) : Option Broker :=
  let bar := env.bars o.data.ticker
  match exec_price o bar with
  | ExecResult.unbound => none
  | ExecResult.infeasible => some b
  | ExecResult.ok p =>
    let factor := effFactor o.data bar
    match total_comm o bar with
    | none => none
    | some tc =>
      let b := { b with tpnl := bump b.tpnl o.data.ticker tc }
      let CASH := tc - (if o.data.stocklike then o.size * p else 0)
      let b := { b with cashCur := b.cashCur + CASH }
      let M2M := o.size * (bar.open0 - p) * factor
      let b :=
        { b with
          openCur := b.openCur + M2M
          equityCur := b.equityCur + M2M
          tpnl := bump b.tpnl o.data.ticker M2M }
      match lookupA b.positions o.data.ticker with
      | none => none
      | some pos =>
        let pos := pos.add o.size
        let b :=
          if pos.size = 0 then { b with positions := eraseA b.positions o.data.ticker }
          else { b with positions := updateA b.positions o.data.ticker pos }
        some { b with executed := b.executed ++ [{ o with status := Status.executed }] }

/-- beg_of_period position step: overnight mark-to-market against the
previous close, cash participation for non-stock-like instruments, and
the carry charge for cash-like instruments. -/
def bopStep (env : Env) (b : Broker) (pos : Position) : Broker :=
  let data := pos.data
  let bar := env.bars data.ticker
  let factor := effFactor data bar
  let MTM := pos.size * (bar.open0 - bar.closePrev) * factor
  let b :=
    { b with
      openCur := b.openCur + MTM
      equityCur := b.equityCur + MTM
      opnl := bump b.opnl data.ticker MTM
      cashCur := if data.stocklike then b.cashCur else b.cashCur + MTM }
  if data.cashlike then
    let dollarExpo := pos.size * factor * bar.closePrev
    let carry := -dollarExpo * env.lastCarry
    { b with
      openCur := b.openCur + carry
      equityCur := b.equityCur + carry
      cashCur := b.cashCur + carry
      cpnl := bump b.cpnl data.ticker carry }
  else b

/-- beg_of_period order loop: iterates over the snapshot of the order
stack; a WAITING order is executed and then popped from the book whatever
the execution outcome was (note the unconditional pop in the source). -/
def procOrders (env : Env) : Broker → List (String × Order) → Option Broker
  | b, [] => some b
  | b, (tk, o) :: rest =>
    if o.status = Status.waiting then
      match execute_order env b o with
      | none => none
      | some b1 => procOrders env { b1 with orders := eraseA b1.orders tk } rest
    else procOrders env b rest

/-- beg_of_period accumulator clear and ledger roll: cash[0] = cash[-1],
open[0] = equity[-1], equity[0] = equity[-1]. -/
def bopReset (b : Broker) : Broker :=
  { b with
    opnl := fun _ => 0
    ipnl := fun _ => 0
    tpnl := fun _ => 0
    cpnl := fun _ => 0
    cashCur := b.cashPrev
    openCur := b.equityPrev
    equityCur := b.equityPrev }

/-- beg_of_period position loop: fold the position stack through the
overnight mark-to-market step. -/
def bopMarks (env : Env) (b : Broker) : Broker :=
  b.positions.foldl (fun acc entry => bopStep env acc entry.2) b

/-- beg_of_period from broker.py: clear the four accumulators, roll the
ledger cells forward, mark every position to the open, then run the order
loop over the snapshot of the order stack. -/
def beg_of_period (env : Env) (b : Broker) : Option Broker :=
  procOrders env (bopMarks env (bopReset b)) (bopMarks env (bopReset b)).orders

/-- end_of_period position step: intraday mark-to-market close minus open,
target exposure computation against the running equity, and the record
row (sign-flipped for rates-like instruments). -/
def eopStep (env : Env) (b : Broker) (pos : Position) : Broker :=
  let data := pos.data
  let ticker := data.ticker
  let bar := env.bars ticker
  let factor := effFactor data bar
  let order := lookupA b.orders ticker
  let price := bar.close0
  let opn := bar.open0
  let target := pos.size + (match order with | some o => o.size | none => 0)
  let texpo := target * factor * price / b.equityCur
  let MTM := pos.size * (price - opn) * factor
  let b1 :=
    { b with
      equityCur := b.equityCur + MTM
      ipnl := bump b.ipnl ticker MTM
      cashCur := if data.stocklike then b.cashCur else b.cashCur + MTM }
  if data.rateslike then
    { b1 with
      records := b1.records ++
        [{ ticker := ticker, size := -pos.size,
           opnl := b1.opnl ticker, ipnl := b1.ipnl ticker,
           tpnl := b1.tpnl ticker, cpnl := b1.cpnl ticker,
           signal := -bar.signal0, refvol := bar.volatility0,
           target := -target, texpo := texpo }] }
  else
    { b1 with
      records := b1.records ++
        [{ ticker := ticker, size := pos.size,
           opnl := b1.opnl ticker, ipnl := b1.ipnl ticker,
           tpnl := b1.tpnl ticker, cpnl := b1.cpnl ticker,
           signal := bar.signal0, refvol := bar.volatility0,
           target := target, texpo := texpo }] }

/-- end_of_period from broker.py: fold the position stack through the
intraday accounting step. -/
def end_of_period (env : Env) (b : Broker) : Broker :=
  b.positions.foldl (fun acc entry => eopStep env acc entry.2) b

/-- Reachable broker states: the construction state followed by any
interleaving of the operations that the orchestrator and the strategy
perform (order submission, position closing, buffer advance and the two
accounting phases). -/
inductive Reachable : Broker → Prop where
  | mk_init (cash : ℚ) : Reachable (Broker.mkBroker cash)
  | step_new (b : Broker) (data : AssetCfg) (size : ℚ) (limit : Option ℚ) :
      Reachable b → Reachable (new_order b data size limit)
  | step_close (b : Broker) (data : AssetCfg) :
      Reachable b → Reachable (b.close data)
  | step_next (b : Broker) : Reachable b → Reachable b.brokerNext
  | step_bop (env : Env) (b b' : Broker) :
      Reachable b → beg_of_period env b = some b' → Reachable b'
  | step_eop (env : Env) (b : Broker) :
      Reachable b → Reachable (end_of_period env b)

/-! Ranking pipeline, from pipelines/pipeline.py Ranking. -/

/-- Per-date view of one candidate stock: its static dates together with
the current values of the liquidity, volatility and indicator lines. -/
structure StockDay where
  ticker : String
  inception : ℤ
  maturity : ℤ
  liquidity0 : ℚ
  volatility0 : ℚ
  indicator0 : ℚ
deriving DecidableEq, Repr

/-- actives screening of Ranking.next: inception and maturity bracket
today, and liquidity/volatility lie inside the configured bands.  (The
source additionally drops NaN indicator values, which have no rational
counterpart.) -/
def activesFilter (today : ℤ) (xs : List StockDay) : List StockDay :=
  xs.filter (fun a =>
    decide (a.inception ≤ today) && decide (a.maturity ≥ today) &&
    decide (a.liquidity0 > DEFAULT_LIQTHRESH) &&
    decide (a.volatility0 < DEFAULT_STKMAXVOL) &&
    decide (a.volatility0 > DEFAULT_STKMINVOL))

/-- insertion step of the ascending sort by indicator value. -/
def insertRank (x : String × ℚ) : List (String × ℚ) → List (String × ℚ)
  | [] => [x]
  | y :: ys => if x.2 < y.2 then x :: y :: ys else y :: insertRank x ys

/-- sortRank models the ascending key sort of the ranking list. -/
def sortRank (l : List (String × ℚ)) : List (String × ℚ) :=
  l.foldr insertRank []

/-- leading four-character issuer code of a ticker (the Python slice
ticker[:4]). -/
def prefix4 (s : String) : List Char :=
  s.toList.take 4

/-- selection loop of Ranking.next.  The source pops from the tail of the
ascending ranking (best candidate first); here the argument list is
already that pop order.  A candidate is kept only when fewer than n are
selected so far and its issuer code was not seen yet. -/
def whileSelect (n : ℕ) : List String → List (List Char) → List String → List String
  | [], _, unv => unv
  | t :: rest, names, unv =>
    if unv.length < n then
      if prefix4 t ∈ names then whileSelect n rest names unv
      else whileSelect n rest (names ++ [prefix4 t]) (unv ++ [t])
    else unv

/-- ranking_next embeds Ranking.next: on a rebalance date (weekday of
today strictly greater than the weekday of the one-day-lagged date) the
actives are filtered, ranked ascending by indicator and the selection
loop walks the ranking from the best end; on any other date the previous
universe is returned unchanged.  (The broker.close calls that flatten
dropped holdings mutate only the broker and are not part of the returned
universe.) -/
def ranking_next (wdToday wdLagged : ℕ) (today : ℤ) (n : ℕ)
    (stocks : List StockDay) (prevUniverse : List String) : List String :=
  if wdLagged < wdToday then
    let actives := activesFilter today stocks
    let rank := sortRank (actives.map (fun a => (a.ticker, a.indicator0)))
    whileSelect n (rank.map Prod.fst).reverse [] []
  else prevUniverse

/-! Concrete sample instruments, bars and broker states used to evaluate
the model on explicit inputs. -/

/-- Sample stock-like instrument quoted in the home currency with unit
multiplier, zero commission and zero slippage. -/
def sampleStock : AssetCfg :=
  { ticker := "AAAA"
    slippage := 0
    currency := "BRL"
    inception := 19000101
    maturity := 21000101
    commission := 0
    commtypePerc := true
    multiplier := 1
    stocklike := true
    rateslike := false
    asset := "AAAA" }

/-- Sample daily bar. -/
def sampleBar : Bar :=
  { open0 := 10, high0 := 11, low0 := 9, close0 := 12, closePrev := 10,
    fxClose0 := 1, signal0 := 1, volatility0 := 1 }

/-- Sample one-date environment mapping every ticker to the sample bar. -/
def sampleEnv : Env :=
  { bars := fun _ => sampleBar, lastCarry := 0 }

/-- Buy limit order whose limit 5 lies below the day low 9: infeasible. -/
def ordC5 : Order :=
  { data := sampleStock, size := 1, limit := some 5, status := Status.waiting }

/-- Broker holding three shares and the infeasible limit order. -/
def brokerC5 : Broker :=
  { Broker.mkBroker 100 with
    positions := [("AAAA", Position.mk sampleStock 3)]
    orders := [("AAAA", ordC5)] }

/-- Feasible buy limit order: limit 10 is at least the day low 9. -/
def ordC6 : Order :=
  { data := sampleStock, size := 1, limit := some 10, status := Status.waiting }

/-- Market buy of one thousand shares against one hundred in cash. -/
def ordC7 : Order :=
  { data := sampleStock, size := 1000, limit := none, status := Status.waiting }

/-- Broker with one hundred of cash and an empty position entry. -/
def brokerC7 : Broker :=
  { Broker.mkBroker 100 with
    positions := [("AAAA", Position.mk sampleStock 0)] }

/-- Bar of the worked example of broker.py end_of_period: previous close
10, opening price 10.5, closing price 12. -/
def barC1 : Bar :=
  { open0 := 21 / 2, high0 := 13, low0 := 10, close0 := 12, closePrev := 10,
    fxClose0 := 1, signal0 := 1, volatility0 := 1 }

/-- Environment for the worked example. -/
def envC1 : Env :=
  { bars := fun _ => barC1, lastCarry := 0 }

/-- Same-day market trade of ninety shares. -/
def ordC1 : Order :=
  { data := sampleStock, size := 90, limit := none, status := Status.waiting }

/-- Broker holding ten shares with the ninety-share order pending. -/
def brokerC1 : Broker :=
  { Broker.mkBroker 1000 with
    positions := [("AAAA", Position.mk sampleStock 10)]
    orders := [("AAAA", ordC1)] }

/-- Broker after one order submission from the construction state. -/
def brokerC3 : Broker :=
  new_order (Broker.mkBroker 100) sampleStock 5 none

/-! Theorems. -/

/-- C10: an order whose limit price is exactly 0 takes the market branch
of exec_price: the high/low feasibility test is skipped and the result is
unconditionally open[0] * (1 + side * slippage), because the source tests
the truthiness of the limit rather than comparing it with None. -/
theorem c10_zero_limit_takes_market_branch (a : AssetCfg) (sz : ℚ) (bar : Bar) :
    exec_price { data := a, size := sz, limit := some 0, status := Status.waiting } bar
      = ExecResult.ok (bar.open0 *
          (1 + Order.side { data := a, size := sz, limit := some 0, status := Status.waiting }
            * a.slippage)) := by
  simp [exec_price, limitTruthy]

/-- C6: a feasible buy limit order (limit 10, day low 9) does not return a
slippage-adjusted limit price: the limit branch of exec_price never
assigns the local variable slip, so evaluating the property raises
UnboundLocalError. -/
theorem c6_feasible_limit_reads_unbound_slip :
    exec_price ordC6 sampleBar = ExecResult.unbound := by
  decide

/-- C8: constructing a future-like asset (multiplier supplied) with the
maturity left at its default does not raise: Asset.config builds the
ValueError for the missing maturity but never raises it, so configuration
completes and yields a future-like asset with the default maturity. -/
theorem c8_missing_maturity_not_raised :
    assetConfig "WINZXX" none (some 50) DEFAULT_INCEPTION DEFAULT_MATURITY
        0 "BRL"
      = Except.ok
          { ticker := "WINZXX"
            slippage := 0
            currency := "BRL"
            inception := DEFAULT_INCEPTION
            maturity := DEFAULT_MATURITY
            commission := DEFAULT_FCOMMISSION
            commtypePerc := false
            multiplier := 50
            stocklike := false
            rateslike := false
            asset := "WIN" } := by
  rfl

/-- C4 counterexample: with values [1, 2, 3] and buffer 0, the read at
offset -1 has buffer + k = -1 < 0, which the claim requires to fail, yet
the read succeeds and returns the last element (numpy negative-index
wrap-around). -/
theorem c4_counterexample :
    LineBuf.getitem { values := [1, 2, 3], buffer := 0 } (-1) = some 3
      ∧ ((0 : ℤ) + -1 < 0) := by
  decide

/-- C4 amended: a Line read at offset k succeeds exactly when
-len <= buffer + k < len; a nonnegative effective index reads
values[buffer + k], while a negative effective index at least -len wraps
around and reads values[len + buffer + k] instead of failing. -/
theorem c4_line_read_amended (l : LineBuf) (k : ℤ) :
    ((l.getitem k).isSome ↔
        -(l.values.length : ℤ) ≤ (l.buffer : ℤ) + k
          ∧ (l.buffer : ℤ) + k < (l.values.length : ℤ))
    ∧ (0 ≤ (l.buffer : ℤ) + k →
        l.getitem k = l.values.get? ((l.buffer : ℤ) + k).toNat)
    ∧ ((l.buffer : ℤ) + k < 0 → -(l.values.length : ℤ) ≤ (l.buffer : ℤ) + k →
        l.getitem k = l.values.get? ((l.values.length : ℤ) + ((l.buffer : ℤ) + k)).toNat) := by
  refine ⟨?_, ?_, ?_⟩
  · simp only [LineBuf.getitem]
    by_cases h0 : 0 ≤ (l.buffer : ℤ) + k
    · rw [if_pos h0, Option.isSome_iff_ne_none, ne_eq, List.get?_eq_none, not_le]
      omega
    · rw [if_neg h0]
      by_cases h1 : -(l.values.length : ℤ) ≤ (l.buffer : ℤ) + k
      · rw [if_pos h1, Option.isSome_iff_ne_none, ne_eq, List.get?_eq_none, not_le]
        omega
      · rw [if_neg h1]
        simp only [Option.isSome_none, Bool.false_eq_true, false_iff, not_and, not_lt]
        omega
  · intro h0
    simp only [LineBuf.getitem]
    rw [if_pos h0]
  · intro hneg hge
    have h0 : ¬ 0 ≤ (l.buffer : ℤ) + k := by omega
    simp only [LineBuf.getitem]
    rw [if_neg h0, if_pos hge]

/-- C4 witness: the amended statement evaluated at concrete inputs, one in
the direct range and one in the wrap range. -/
theorem c4_line_read_amended_witness :
    LineBuf.getitem { values := [1, 2, 3], buffer := 1 } 1 = List.get? [1, 2, 3] 2
      ∧ LineBuf.getitem { values := [1, 2, 3], buffer := 0 } (-1) = List.get? [1, 2, 3] 2 := by
  constructor
  · have h := (c4_line_read_amended { values := [1, 2, 3], buffer := 1 } 1).2.1 (by decide)
    simpa using h
  · have h := (c4_line_read_amended { values := [1, 2, 3], buffer := 0 } (-1)).2.2
      (by decide) (by decide)
    simpa using h

/-- Every line of a constructed Data object has buffer DEFAULT_BUFFER + n
after n advances. -/
theorem advance_lines_buffer (cols : List (String × List ℚ)) (index : List ℚ) (n : ℕ) :
    ∀ p ∈ ((DataS.mkData cols index).advance n).lines, p.2.buffer = DEFAULT_BUFFER + n := by
  induction n with
  | zero =>
    intro p hp
    simp only [DataS.advance, DataS.mkData, List.mem_append, List.mem_map,
      List.mem_singleton] at hp
    rcases hp with ⟨x, _, rfl⟩ | rfl
    · rfl
    · rfl
  | succ n ih =>
    intro p hp
    simp only [DataS.advance, DataS.dataNext, List.mem_map] at hp
    obtain ⟨q, hq, rfl⟩ := hp
    simp only [LineBuf.lineNext]
    rw [ih q hq]
    omega

/-- C2: all lines of a Data object (the hidden index line included) are
created with the same buffer and advance together, so after any number of
advance calls any two lines have equal buffers — each equal to the default
buffer plus the number of advances — and a read at offset 0 on any of them
addresses the same array position, hence the same calendar date of the
index line. -/
theorem c2_cursor_synchronization (cols : List (String × List ℚ)) (index : List ℚ)
    (n : ℕ) (p q : String × LineBuf)
    (hp : p ∈ ((DataS.mkData cols index).advance n).lines)
    (hq : q ∈ ((DataS.mkData cols index).advance n).lines) :
    p.2.buffer = q.2.buffer ∧ p.2.buffer = DEFAULT_BUFFER + n := by
  have h1 := advance_lines_buffer cols index n p hp
  have h2 := advance_lines_buffer cols index n q hq
  exact ⟨h1.trans h2.symm, h1⟩

/-- C2 witness: a concrete Data object with one price column, advanced
once. -/
theorem c2_cursor_synchronization_witness :
    (("close", LineBuf.mk [1] 201) ∈ ((DataS.mkData [("close", [1])] [5]).advance 1).lines)
    ∧ (("__index", LineBuf.mk [5] 201) ∈ ((DataS.mkData [("close", [1])] [5]).advance 1).lines)
    ∧ (LineBuf.mk [1] 201).buffer = (LineBuf.mk [5] 201).buffer := by
  refine ⟨by decide, by decide, ?_⟩
  exact (c2_cursor_synchronization [("close", [1])] [5] 1
    ("close", LineBuf.mk [1] 201) ("__index", LineBuf.mk [5] 201)
    (by decide) (by decide)).1

/-- The selection loop keeps at most n tickers and never two with the same
issuer code, given that the accumulator already satisfies the invariant
and every selected issuer code is recorded in names. -/
theorem whileSelect_invariant (n : ℕ) (tmp : List String) :
    ∀ (names : List (List Char)) (unv : List String),
      unv.length ≤ n → ((unv.map prefix4).Nodup) →
      (∀ u ∈ unv, prefix4 u ∈ names) →
      (whileSelect n tmp names unv).length ≤ n
        ∧ ((whileSelect n tmp names unv).map prefix4).Nodup := by
  induction tmp with
  | nil =>
    intro names unv hlen hnd _
    exact ⟨hlen, hnd⟩
  | cons t rest ih =>
    intro names unv hlen hnd hmem
    simp only [whileSelect]
    by_cases hfull : unv.length < n
    · rw [if_pos hfull]
      by_cases hseen : prefix4 t ∈ names
      · rw [if_pos hseen]
        exact ih names unv hlen hnd hmem
      · rw [if_neg hseen]
        refine ih (names ++ [prefix4 t]) (unv ++ [t]) ?_ ?_ ?_
        · simp only [List.length_append, List.length_singleton]
          omega
        · simp only [List.map_append, List.map_singleton, List.nodup_append,
            List.nodup_singleton, true_and]
          refine ⟨hnd, ?_⟩
          intro x hx hx1
          simp only [List.mem_singleton] at hx1
          subst hx1
          simp only [List.mem_map] at hx
          obtain ⟨u, hu, hup⟩ := hx
          exact hseen (hup ▸ hmem u hu)
        · intro u hu
          rcases List.mem_append.mp hu with h | h
          · exact List.mem_append.mpr (Or.inl (hmem u h))
          · simp only [List.mem_singleton] at h
            subst h
            exact List.mem_append.mpr (Or.inr (List.mem_singleton.mpr rfl))
    · rw [if_neg hfull]
      exact ⟨hlen, hnd⟩

/-- C9: on a rebalance date (today weekday strictly above the lagged
weekday) the universe returned by Ranking.next holds at most n tickers,
and the leading four-character issuer codes of the selected tickers are
pairwise distinct. -/
theorem c9_ranking_selection_bound (wdToday wdLagged : ℕ) (today : ℤ) (n : ℕ)
    (stocks : List StockDay) (prevU : List String)
    (hreb : wdLagged < wdToday) :
    (ranking_next wdToday wdLagged today n stocks prevU).length ≤ n
      ∧ ((ranking_next wdToday wdLagged today n stocks prevU).map prefix4).Nodup := by
  simp only [ranking_next, if_pos hreb]
  exact whileSelect_invariant n _ [] []
    (by simp) (by simp) (by intro u hu; simp at hu)

/-- C9 witness: a concrete rebalance date with two same-issuer candidates
and one distinct one, at capacity two. -/
theorem c9_ranking_selection_bound_witness :
    (ranking_next 2 0 0 2
        [{ ticker := "PETR3", inception := -1, maturity := 1, liquidity0 := 1,
           volatility0 := 1, indicator0 := 3 },
         { ticker := "PETR4", inception := -1, maturity := 1, liquidity0 := 1,
           volatility0 := 1, indicator0 := 2 },
         { ticker := "VALE3", inception := -1, maturity := 1, liquidity0 := 1,
           volatility0 := 1, indicator0 := 1 }] []).length ≤ 2
    ∧ ((ranking_next 2 0 0 2
        [{ ticker := "PETR3", inception := -1, maturity := 1, liquidity0 := 1,
           volatility0 := 1, indicator0 := 3 },
         { ticker := "PETR4", inception := -1, maturity := 1, liquidity0 := 1,
           volatility0 := 1, indicator0 := 2 },
         { ticker := "VALE3", inception := -1, maturity := 1, liquidity0 := 1,
           volatility0 := 1, indicator0 := 1 }] []).map prefix4).Nodup :=
  c9_ranking_selection_bound 2 0 0 2 _ [] (by decide)

/-- Lookup after update at the same key. -/
theorem lookupA_updateA_self {α : Type} (l : List (String × α)) (k : String) (v : α) :
    lookupA (updateA l k v) k = some v := by
  induction l with
  | nil => simp [updateA, lookupA]
  | cons hd tl ih =>
    by_cases h : hd.1 = k
    · simp [updateA, h, lookupA]
    · simp only [updateA]
      rw [if_neg (by exact h)]
      simp only [lookupA]
      rw [if_neg h]
      exact ih

/-- Keys after an update are among the old keys plus the updated key. -/
theorem mem_keys_updateA {α : Type} (l : List (String × α)) (k : String) (v : α)
    (x : String) (hx : x ∈ (updateA l k v).map Prod.fst) :
    x ∈ l.map Prod.fst ∨ x = k := by
  induction l with
  | nil =>
    simp only [updateA, List.map_cons, List.map_nil, List.mem_singleton] at hx
    exact Or.inr hx
  | cons hd tl ih =>
    simp only [updateA] at hx
    by_cases h : hd.1 = k
    · rw [if_pos h] at hx
      simp only [List.map_cons, List.mem_cons] at hx
      rcases hx with rfl | hx
      · exact Or.inr rfl
      · exact Or.inl (by
          simp only [List.map_cons]
          exact List.mem_cons.mpr (Or.inr hx))
    · rw [if_neg h] at hx
      simp only [List.map_cons, List.mem_cons] at hx
      rcases hx with rfl | hx
      · exact Or.inl (by
          simp only [List.map_cons]
          exact List.mem_cons.mpr (Or.inl rfl))
      · rcases ih hx with h1 | h1
        · exact Or.inl (by
            simp only [List.map_cons]
            exact List.mem_cons.mpr (Or.inr h1))
        · exact Or.inr h1

/-- Updating preserves distinctness of the dictionary keys. -/
theorem nodup_keys_updateA {α : Type} (l : List (String × α)) (k : String) (v : α)
    (hnd : (l.map Prod.fst).Nodup) : ((updateA l k v).map Prod.fst).Nodup := by
  induction l with
  | nil => simp [updateA]
  | cons hd tl ih =>
    simp only [List.map_cons, List.nodup_cons] at hnd
    simp only [updateA]
    by_cases h : hd.1 = k
    · rw [if_pos h]
      simp only [List.map_cons, List.nodup_cons]
      exact ⟨by rw [← h]; exact hnd.1, hnd.2⟩
    · rw [if_neg h]
      simp only [List.map_cons, List.nodup_cons]
      refine ⟨?_, ih hnd.2⟩
      intro hmem
      rcases mem_keys_updateA tl k v hd.1 hmem with h1 | h1
      · exact hnd.1 h1
      · exact h h1

/-- Keys surviving an erase form a sublist of the original keys. -/
theorem keys_eraseA_sublist {α : Type} (l : List (String × α)) (k : String) :
    ((eraseA l k).map Prod.fst).Sublist (l.map Prod.fst) := by
  induction l with
  | nil => simp [eraseA]
  | cons hd tl ih =>
    simp only [eraseA]
    by_cases h : hd.1 = k
    · rw [if_pos h]
      simp only [List.map_cons]
      exact (List.sublist_cons_self _ _)
    · rw [if_neg h]
      simp only [List.map_cons]
      exact ih.cons₂ hd.1

/-- Erasing preserves distinctness of the dictionary keys. -/
theorem nodup_keys_eraseA {α : Type} (l : List (String × α)) (k : String)
    (hnd : (l.map Prod.fst).Nodup) : ((eraseA l k).map Prod.fst).Nodup :=
  hnd.sublist (keys_eraseA_sublist l k)

/-- bopStep touches only the ledger cells and the opnl/cpnl accumulators. -/
theorem bopStep_fields (env : Env) (b : Broker) (pos : Position) :
    (bopStep env b pos).orders = b.orders
      ∧ (bopStep env b pos).cancels = b.cancels
      ∧ (bopStep env b pos).executed = b.executed
      ∧ (bopStep env b pos).positions = b.positions := by
  simp only [bopStep]
  split <;> exact ⟨rfl, rfl, rfl, rfl⟩

/-- The beg_of_period position fold touches only the ledger cells and the
opnl/cpnl accumulators. -/
theorem bop_fold_fields (env : Env) (l : List (String × Position)) :
    ∀ b : Broker,
      (l.foldl (fun acc entry => bopStep env acc entry.2) b).orders = b.orders
      ∧ (l.foldl (fun acc entry => bopStep env acc entry.2) b).cancels = b.cancels
      ∧ (l.foldl (fun acc entry => bopStep env acc entry.2) b).executed = b.executed
      ∧ (l.foldl (fun acc entry => bopStep env acc entry.2) b).positions = b.positions := by
  induction l with
  | nil => intro b; exact ⟨rfl, rfl, rfl, rfl⟩
  | cons hd tl ih =>
    intro b
    simp only [List.foldl_cons]
    have h1 := bopStep_fields env b hd.2
    have h2 := ih (bopStep env b hd.2)
    exact ⟨h2.1.trans h1.1, h2.2.1.trans h1.2.1, h2.2.2.1.trans h1.2.2.1,
      h2.2.2.2.trans h1.2.2.2⟩

/-- execute_order leaves the order book and the cancels audit list
untouched. -/
theorem execute_order_book (env : Env) (b : Broker) (o : Order) (b' : Broker)
    (h : execute_order env b o = some b') :
    b'.orders = b.orders ∧ b'.cancels = b.cancels := by
  simp only [execute_order] at h
  split at h
  · exact absurd h (by simp)
  · rw [← Option.some.inj h]
    exact ⟨rfl, rfl⟩
  · split at h
    · exact absurd h (by simp)
    · split at h
      · exact absurd h (by simp)
      · split at h <;> (rw [← Option.some.inj h]; exact ⟨rfl, rfl⟩)

/-- The order loop of beg_of_period preserves distinctness of the order
book keys. -/
theorem procOrders_nodup (env : Env) (snapshot : List (String × Order)) :
    ∀ (b b' : Broker), (b.orders.map Prod.fst).Nodup →
      procOrders env b snapshot = some b' → (b'.orders.map Prod.fst).Nodup := by
  induction snapshot with
  | nil =>
    intro b b' hnd h
    simp only [procOrders] at h
    rw [← Option.some.inj h]
    exact hnd
  | cons hd tl ih =>
    intro b b' hnd h
    simp only [procOrders] at h
    split at h
    · cases hx : execute_order env b hd.2 with
      | none => rw [hx] at h; exact absurd h (by simp)
      | some b1 =>
        rw [hx] at h
        refine ih _ b' ?_ h
        have hb1 := (execute_order_book env b hd.2 b1 hx).1
        exact nodup_keys_eraseA _ hd.1 (hb1 ▸ hnd)
    · exact ih b b' hnd h

/-- beg_of_period preserves distinctness of the order book keys. -/
theorem beg_of_period_nodup (env : Env) (b b' : Broker)
    (hnd : (b.orders.map Prod.fst).Nodup)
    (h : beg_of_period env b = some b') : (b'.orders.map Prod.fst).Nodup := by
  simp only [beg_of_period] at h
  have hfold := bop_fold_fields env (bopReset b).positions (bopReset b)
  refine procOrders_nodup env _ _ _ ?_ h
  simp only [bopMarks]
  rw [hfold.1]
  exact hnd

/-- new_order preserves distinctness of the order book keys. -/
theorem new_order_nodup (b : Broker) (data : AssetCfg) (size : ℚ) (limit : Option ℚ)
    (hnd : (b.orders.map Prod.fst).Nodup) :
    ((new_order b data size limit).orders.map Prod.fst).Nodup := by
  simp only [new_order]
  split
  · exact hnd
  · split
    · split
      · exact nodup_keys_updateA _ _ _ (by simpa [cancel_order] using hnd)
      · exact nodup_keys_updateA _ _ _ (by simpa [cancel_order] using hnd)
    · split
      · exact nodup_keys_updateA _ _ _ hnd
      · exact nodup_keys_updateA _ _ _ hnd

/-- Every reachable broker state has distinct order book keys. -/
theorem reachable_nodup_keys (b : Broker) (h : Reachable b) :
    (b.orders.map Prod.fst).Nodup := by
  induction h with
  | mk_init cash => simp [Broker.mkBroker]
  | step_new b data size limit _ ih => exact new_order_nodup b data size limit ih
  | step_close b data _ ih =>
    simp only [Broker.close]
    split
    · exact ih
    · exact new_order_nodup b _ _ _ ih
  | step_next b _ ih => exact ih
  | step_bop env b b' _ hbop ih => exact beg_of_period_nodup env b b' ih hbop
  | step_eop env b _ ih =>
    have hfold := bop_fold_fields env b.positions b
    simp only [end_of_period]
    have : ∀ (l : List (String × Position)) (c : Broker),
        (l.foldl (fun acc entry => eopStep env acc entry.2) c).orders = c.orders := by
      intro l
      induction l with
      | nil => intro c; rfl
      | cons hd tl ih2 =>
        intro c
        simp only [List.foldl_cons]
        rw [ih2 (eopStep env c hd.2)]
        simp only [eopStep]
        split <;> rfl
    rw [this b.positions b]
    exact ih

/-- Entries of a key absent from the key list never pass the key filter. -/
theorem filter_key_nil {α : Type} (extra : String × α → Bool) (tk : String) :
    ∀ l : List (String × α), tk ∉ l.map Prod.fst →
      l.filter (fun p => (p.1 == tk) && extra p) = [] := by
  intro l
  induction l with
  | nil => intro _; rfl
  | cons hd tl ih =>
    intro hmem
    simp only [List.map_cons, List.mem_cons] at hmem
    push_neg at hmem
    simp only [List.filter_cons]
    have : (hd.1 == tk) = false := by
      simp only [beq_eq_false_iff_ne, ne_eq]
      intro hc
      exact hmem.1 hc.symm
    rw [this]
    simp only [Bool.false_and, Bool.false_eq_true, if_false]
    exact ih hmem.2

/-- With distinct keys, at most one entry passes any filter that requires
a fixed key. -/
theorem length_filter_key_le_one {α : Type} (extra : String × α → Bool) (tk : String) :
    ∀ l : List (String × α), (l.map Prod.fst).Nodup →
      (l.filter (fun p => (p.1 == tk) && extra p)).length ≤ 1 := by
  intro l
  induction l with
  | nil => intro _; simp
  | cons hd tl ih =>
    intro hnd
    simp only [List.map_cons, List.nodup_cons] at hnd
    simp only [List.filter_cons]
    by_cases hk : hd.1 = tk
    · cases hx : extra hd with
      | false =>
        simp only [hx, Bool.and_false, Bool.false_eq_true, if_false]
        exact ih hnd.2
      | true =>
        have hbeq : (hd.1 == tk) = true := by simpa using hk
        have hnil : tl.filter (fun p => (p.1 == tk) && extra p) = [] :=
          filter_key_nil extra tk tl (by rw [← hk]; exact hnd.1)
        simp [hx, hbeq, hnil]
    · have hbeq : (hd.1 == tk) = false := by simpa using hk
      simp only [hbeq, Bool.false_and, Bool.false_eq_true, if_false]
      exact ih hnd.2

/-- C3: in every reachable broker state there is at most one WAITING order
per ticker in the order book; and when new_order is called with a nonzero
size for a ticker whose book entry is pending, that pending order is
appended CANCELLED to the cancels audit list and the book entry becomes
the fresh WAITING order. -/
theorem c3_order_lifecycle :
    (∀ b : Broker, Reachable b → ∀ tk : String,
        (b.orders.filter
            (fun p => (p.1 == tk) && (p.2.status == Status.waiting))).length ≤ 1)
    ∧ (∀ (b : Broker) (data : AssetCfg) (size : ℚ) (limit : Option ℚ) (pending : Order),
        lookupA b.orders data.ticker = some pending → size ≠ 0 →
        (new_order b data size limit).cancels
            = b.cancels ++ [{ pending with status := Status.cancelled }]
        ∧ lookupA (new_order b data size limit).orders data.ticker
            = some { data := data, size := size, limit := limit, status := Status.waiting }) := by
  constructor
  · intro b hb tk
    exact length_filter_key_le_one _ tk b.orders (reachable_nodup_keys b hb)
  · intro b data size limit pending hpend hsz
    simp only [new_order]
    rw [if_neg hsz, hpend]
    refine ⟨?_, ?_⟩
    · split <;> simp [cancel_order]
    · split <;>
        simpa [cancel_order] using lookupA_updateA_self b.orders data.ticker
          { data := data, size := size, limit := limit, status := Status.waiting }

/-- C3 witness: a broker reached by one submission, then a second
submission for the same ticker. -/
theorem c3_order_lifecycle_witness :
    ((brokerC3.orders.filter
        (fun p => (p.1 == "AAAA") && (p.2.status == Status.waiting))).length ≤ 1)
    ∧ (new_order brokerC3 sampleStock 2 none).cancels
        = brokerC3.cancels
            ++ [{ data := sampleStock, size := 5, limit := none, status := Status.cancelled }]
    ∧ lookupA (new_order brokerC3 sampleStock 2 none).orders sampleStock.ticker
        = some { data := sampleStock, size := 2, limit := none, status := Status.waiting } := by
  have h1 := c3_order_lifecycle.1 brokerC3
    (Reachable.step_new _ _ _ _ (Reachable.mk_init 100)) "AAAA"
  have h2 := c3_order_lifecycle.2 brokerC3 sampleStock 2 none
    { data := sampleStock, size := 5, limit := none, status := Status.waiting }
    (by decide) (by decide)
  exact ⟨h1, h2.1, h2.2⟩

/-- The bopMarks fold touches only the ledger cells and the opnl/cpnl
accumulators. -/
theorem bopMarks_fields (env : Env) (b : Broker) :
    (bopMarks env b).orders = b.orders
      ∧ (bopMarks env b).cancels = b.cancels
      ∧ (bopMarks env b).executed = b.executed
      ∧ (bopMarks env b).positions = b.positions :=
  bop_fold_fields env b.positions b

/-- C5 counterexample: a broker holding an infeasible buy limit order
(limit 5 against day low 9).  After beg_of_period the order was neither
cancelled nor executed, yet it is no longer present in the order book, so
it cannot be attempted again at the next period. -/
theorem c5_counterexample :
    (beg_of_period sampleEnv brokerC5).map
        (fun b => (lookupA b.orders "AAAA", b.cancels.length, b.executed.length))
      = some (none, 0, 0) := by
  rfl

/-- C5 amended: an infeasible limit order is left with status WAITING by
execute_order (it is neither cancelled nor executed), but beg_of_period
pops every processed order from the book unconditionally, so the order is
removed from the order book and is not attempted again at the next
period. -/
theorem c5_infeasible_removed_not_retried (env : Env) (b : Broker) (tk : String) (o : Order)
    (horders : b.orders = [(tk, o)])
    (hwait : o.status = Status.waiting)
    (hinf : exec_price o (env.bars o.data.ticker) = ExecResult.infeasible) :
    ∃ b', beg_of_period env b = some b'
      ∧ lookupA b'.orders tk = none
      ∧ b'.cancels = b.cancels
      ∧ b'.executed = b.executed := by
  have hflds := bopMarks_fields env (bopReset b)
  have hford : (bopMarks env (bopReset b)).orders = [(tk, o)] := by
    rw [hflds.1]
    exact horders
  have hexe : execute_order env (bopMarks env (bopReset b)) o
      = some (bopMarks env (bopReset b)) := by
    simp only [execute_order, hinf]
  refine ⟨{ bopMarks env (bopReset b) with
      orders := eraseA (bopMarks env (bopReset b)).orders tk }, ?_, ?_, ?_, ?_⟩
  · simp only [beg_of_period, hford, procOrders, hwait, if_pos, hexe]
  · rw [hford]
    simp [eraseA, lookupA]
  · rw [hflds.2.1]
    rfl
  · rw [hflds.2.2.1]
    rfl

/-- C5 witness: the amended statement evaluated on the concrete infeasible
limit order of the counterexample. -/
theorem c5_infeasible_removed_not_retried_witness :
    ∃ b', beg_of_period sampleEnv brokerC5 = some b'
      ∧ lookupA b'.orders "AAAA" = none
      ∧ b'.cancels = brokerC5.cancels
      ∧ b'.executed = brokerC5.executed :=
  c5_infeasible_removed_not_retried sampleEnv brokerC5 "AAAA" ordC5
    (by decide) (by decide) (by decide)

/-- C7: executing a market buy of one thousand shares at price ten against
one hundred of cash commits the trade and leaves the ledger with negative
cash: execute_order performs no cash-sufficiency check and reports no
violation (contrary to its own docstring, which announces the check). -/
theorem c7_negative_cash_committed :
    (execute_order sampleEnv brokerC7 ordC7).map
        (fun b => (b.cashCur, b.executed.map Order.status))
      = some (-9900, [Status.executed]) := by
  norm_num [execute_order, exec_price, total_comm, limitTruthy, Order.side, effFactor,
    bump, lookupA, updateA, eraseA, Position.add, ordC7, brokerC7, sampleEnv, sampleBar,
    sampleStock, Broker.mkBroker]

/-- bopMarks over a single position is one bopStep. -/
theorem bopMarks_single (env : Env) (b : Broker) (tk : String) (pos : Position)
    (h : b.positions = [(tk, pos)]) :
    bopMarks env b = bopStep env b pos := by
  simp [bopMarks, h]

/-- Accumulator view of one bopStep: opnl gains the overnight
mark-to-market of the position, tpnl/ipnl and the books are untouched. -/
theorem bopStep_accums (env : Env) (b : Broker) (pos : Position) :
    (bopStep env b pos).opnl = bump b.opnl pos.data.ticker
        (pos.size * ((env.bars pos.data.ticker).open0 - (env.bars pos.data.ticker).closePrev)
          * effFactor pos.data (env.bars pos.data.ticker))
      ∧ (bopStep env b pos).tpnl = b.tpnl
      ∧ (bopStep env b pos).ipnl = b.ipnl
      ∧ (bopStep env b pos).orders = b.orders
      ∧ (bopStep env b pos).positions = b.positions := by
  simp only [bopStep]
  split <;> exact ⟨rfl, rfl, rfl, rfl, rfl⟩

/-- Accumulator view of a successful execution with zero commission: the
trade mark-to-market lands on tpnl of the ticker, opnl/ipnl and the order
book are untouched, and the position is updated (erased at exact zero). -/
theorem execute_order_spec (env : Env) (b : Broker) (o : Order) (pos : Position) (exec : ℚ)
    (hexec : exec_price o (env.bars o.data.ticker) = ExecResult.ok exec)
    (hcomm : o.data.commission = 0)
    (hlk : lookupA b.positions o.data.ticker = some pos) :
    ∃ b2, execute_order env b o = some b2
      ∧ b2.opnl = b.opnl
      ∧ b2.ipnl = b.ipnl
      ∧ (∀ t, b2.tpnl t = b.tpnl t
          + (if t = o.data.ticker then
              o.size * ((env.bars o.data.ticker).open0 - exec)
                * effFactor o.data (env.bars o.data.ticker)
             else 0))
      ∧ b2.orders = b.orders
      ∧ b2.positions =
          (if pos.size + o.size = 0 then eraseA b.positions o.data.ticker
           else updateA b.positions o.data.ticker (pos.add o.size)) := by
  by_cases hct : o.data.commtypePerc <;> by_cases hz0 : pos.size + o.size = 0 <;>
    · simp only [execute_order, total_comm, hexec, hlk, hct, Position.add, hz0,
        Bool.not_eq_true, if_true, if_false, eq_self_iff_true, hcomm, mul_zero,
        zero_mul, neg_zero, zero_add, add_zero, ite_self, ite_true, ite_false]
      refine ⟨_, rfl, rfl, rfl, ?_, rfl, by simp [hz0]⟩
      intro t
      simp only [bump]
      by_cases ht : t = o.data.ticker
      · simp [ht]
      · simp [ht]

/-- procOrders over a single waiting order that execute_order settles. -/
theorem procOrders_single (env : Env) (b b2 : Broker) (tk : String) (o : Order)
    (hwait : o.status = Status.waiting)
    (hexe : execute_order env b o = some b2) :
    procOrders env b [(tk, o)] = some { b2 with orders := eraseA b2.orders tk } := by
  simp [procOrders, hwait, hexe]

/-- end_of_period over an empty position book is the identity. -/
theorem end_of_period_nil (env : Env) (b : Broker) (h : b.positions = []) :
    end_of_period env b = b := by
  simp [end_of_period, h]

/-- end_of_period over a single position is one eopStep. -/
theorem end_of_period_single (env : Env) (b : Broker) (tk : String) (pos : Position)
    (h : b.positions = [(tk, pos)]) :
    end_of_period env b = eopStep env b pos := by
  simp [end_of_period, h]

/-- Accumulator view of one eopStep: ipnl gains the intraday
mark-to-market of the position, opnl/tpnl are untouched. -/
theorem eopStep_accums (env : Env) (b : Broker) (pos : Position) :
    (eopStep env b pos).opnl = b.opnl
      ∧ (eopStep env b pos).tpnl = b.tpnl
      ∧ (∀ t, (eopStep env b pos).ipnl t = b.ipnl t
          + (if t = pos.data.ticker then
              pos.size * ((env.bars pos.data.ticker).close0 - (env.bars pos.data.ticker).open0)
                * effFactor pos.data (env.bars pos.data.ticker)
             else 0)) := by
  simp only [eopStep]
  split <;>
    · refine ⟨rfl, rfl, ?_⟩
      intro t
      simp only [bump]
      by_cases ht : t = pos.data.ticker
      · simp [ht]
      · simp [ht]

/-- C1: PnL decomposition identity.  For an instrument with multiplier 1
quoted in the home currency, zero commission and zero slippage, held with
size old, with a single waiting order of size delta that executes at price
exec during beg_of_period, after beg_of_period and end_of_period the
accumulators satisfy opnl + tpnl + ipnl =
old*(open - last_close) + delta*(open - exec) + (old+delta)*(close - open). -/
theorem c1_pnl_decomposition (env : Env) (b : Broker) (data : AssetCfg)
    (old delta exec : ℚ) (lim : Option ℚ) (o : Order)
    (ho : o = { data := data, size := delta, limit := lim, status := Status.waiting })
    (hmul : data.multiplier = 1)
    (hcur : data.currency = DEFAULT_CURRENCY)
    (hcomm : data.commission = 0)
    (hslip : data.slippage = 0)
    (hpos : b.positions = [(data.ticker, Position.mk data old)])
    (hord : b.orders = [(data.ticker, o)])
    (hexec : exec_price o (env.bars data.ticker) = ExecResult.ok exec) :
    (beg_of_period env b).map
        (fun b1 =>
          (end_of_period env b1).opnl data.ticker
            + (end_of_period env b1).tpnl data.ticker
            + (end_of_period env b1).ipnl data.ticker)
      = some (old * ((env.bars data.ticker).open0 - (env.bars data.ticker).closePrev)
          + delta * ((env.bars data.ticker).open0 - exec)
          + (old + delta) * ((env.bars data.ticker).close0 - (env.bars data.ticker).open0)) := by
  have hfac : effFactor data (env.bars data.ticker) = 1 := by
    simp [effFactor, hmul, hcur]
  -- the state after the reset and the overnight marking
  have hrpos : (bopReset b).positions = [(data.ticker, Position.mk data old)] := hpos
  have hbm : bopMarks env (bopReset b) = bopStep env (bopReset b) (Position.mk data old) :=
    bopMarks_single env (bopReset b) data.ticker (Position.mk data old) hrpos
  have hstep := bopStep_accums env (bopReset b) (Position.mk data old)
  -- execution of the single waiting order
  have hlk : lookupA (bopMarks env (bopReset b)).positions o.data.ticker
      = some (Position.mk data old) := by
    rw [hbm, hstep.2.2.2.2, hrpos]
    subst ho
    simp [lookupA]
  have hexec2 : exec_price o (env.bars o.data.ticker) = ExecResult.ok exec := by
    subst ho
    exact hexec
  have hcomm2 : o.data.commission = 0 := by
    subst ho
    exact hcomm
  obtain ⟨b2, hexe, hopnl2, hipnl2, htpnl2, hord2, hpos2⟩ :=
    execute_order_spec env (bopMarks env (bopReset b)) o (Position.mk data old) exec
      hexec2 hcomm2 hlk
  have hwait : o.status = Status.waiting := by
    subst ho
    rfl
  have hbmord : (bopMarks env (bopReset b)).orders = [(data.ticker, o)] := by
    rw [hbm, hstep.2.2.2.1]
    exact hord
  have hbeg : beg_of_period env b
      = some { b2 with orders := eraseA b2.orders data.ticker } := by
    rw [beg_of_period, hbmord]
    exact procOrders_single env (bopMarks env (bopReset b)) b2 data.ticker o hwait hexe
  rw [hbeg]
  simp only [Option.map_some']
  congr 1
  -- the state handed to end_of_period
  have hosz : o.size = delta := by
    subst ho
    rfl
  have hodata : o.data = data := by
    subst ho
    rfl
  have hotk : o.data.ticker = data.ticker := by
    subst ho
    rfl
  have hb2pos : b2.positions =
      (if old + delta = 0 then ([] : List (String × Position))
       else [(data.ticker, Position.mk data (old + delta))]) := by
    rw [hpos2, hotk, hosz]
    rw [hbm, hstep.2.2.2.2, hrpos]
    by_cases hz : old + delta = 0
    · simp [hz, eraseA]
    · simp [hz, updateA, Position.add]
  -- accumulator values after beg_of_period
  have hopnl : ∀ t, b2.opnl t = (if t = data.ticker then
      old * ((env.bars data.ticker).open0 - (env.bars data.ticker).closePrev) else 0) := by
    intro t
    rw [hopnl2, hbm, hstep.1]
    simp only [bump, bopReset]
    by_cases ht : t = data.ticker
    · subst ht
      simp [hfac]
    · simp [ht]
  have htpnl : ∀ t, b2.tpnl t = (if t = data.ticker then
      delta * ((env.bars data.ticker).open0 - exec) else 0) := by
    intro t
    rw [htpnl2 t, hbm, hstep.2.1]
    simp only [bopReset, hodata, hotk, hosz, hfac]
    by_cases ht : t = data.ticker
    · subst ht
      simp
    · simp [ht]
  have hipnl0 : ∀ t, b2.ipnl t = 0 := by
    intro t
    rw [hipnl2, hbm, hstep.2.2.1]
    rfl
  -- end_of_period
  set B : Broker := { b2 with orders := eraseA b2.orders data.ticker } with hB
  have hBpos : B.positions = b2.positions := rfl
  by_cases hz : old + delta = 0
  · have hnil : B.positions = [] := by
      rw [hBpos, hb2pos, if_pos hz]
    rw [end_of_period_nil env B hnil]
    have : B.opnl data.ticker = old * ((env.bars data.ticker).open0
        - (env.bars data.ticker).closePrev) := by
      rw [hB]
      simpa using hopnl data.ticker
    rw [this]
    have : B.tpnl data.ticker = delta * ((env.bars data.ticker).open0 - exec) := by
      rw [hB]
      simpa using htpnl data.ticker
    rw [this]
    have : B.ipnl data.ticker = 0 := by
      rw [hB]
      exact hipnl0 data.ticker
    rw [this]
    rw [hz]
    ring
  · have hone : B.positions = [(data.ticker, Position.mk data (old + delta))] := by
      rw [hBpos, hb2pos, if_neg hz]
    rw [end_of_period_single env B data.ticker (Position.mk data (old + delta)) hone]
    have heop := eopStep_accums env B (Position.mk data (old + delta))
    rw [heop.1, heop.2.1, heop.2.2 data.ticker]
    have h1 : B.opnl data.ticker = old * ((env.bars data.ticker).open0
        - (env.bars data.ticker).closePrev) := by
      rw [hB]
      simpa using hopnl data.ticker
    have h2 : B.tpnl data.ticker = delta * ((env.bars data.ticker).open0 - exec) := by
      rw [hB]
      simpa using htpnl data.ticker
    have h3 : B.ipnl data.ticker = 0 := by
      rw [hB]
      exact hipnl0 data.ticker
    rw [h1, h2, h3]
    simp [hfac]

/-- C1 witness: the worked example of broker.py end_of_period with zero
slippage (ten shares held, ninety bought at the open 10.5, previous close
10, close 12): opnl 5, tpnl 0, ipnl 150, total 155. -/
theorem c1_pnl_decomposition_witness :
    (beg_of_period envC1 brokerC1).map
        (fun b1 =>
          (end_of_period envC1 b1).opnl sampleStock.ticker
            + (end_of_period envC1 b1).tpnl sampleStock.ticker
            + (end_of_period envC1 b1).ipnl sampleStock.ticker)
      = some 155 := by
  have h := c1_pnl_decomposition envC1 brokerC1 sampleStock 10 90 (21 / 2) none ordC1
    rfl rfl rfl rfl rfl rfl rfl
    (by norm_num [exec_price, ordC1, envC1, barC1, limitTruthy, Order.side, sampleStock])
  rw [h]
  norm_num [envC1, barC1]

end Backtesthub
